import Mathlib

/-!
Shallow embedding of the BER/SNMP codec implemented in `src/snmp/types.py`.

Modelling conventions:
* byte strings become `List Nat`, each element one byte value;
* Python integers become `Nat` (the code only produces non-negative
  values, and `int.from_bytes(..., 'big')` is unsigned by default);
* raised exceptions become `Except PyErr` results;
* byte-level bit operations are rendered either with `Nat` bitwise
  operators or with the equivalent arithmetic on values `< 256`,
  as noted at each definition.
-/

/-- Python exceptions raised by the code.  The values that the source
interpolates into the exception messages are carried as constructor
arguments. -/
inductive PyErr where
  /-- indexing an empty / too-short sequence, e.g. `data[0]` on `b''` -/
  | indexError
  /-- `next(stream)` on an exhausted iterator inside `Oid.decode_large_value` -/
  | stopIteration
  /-- `bytes.decode('ascii')` on a byte above `0x7f` -/
  | unicodeDecodeError
  /-- Python `bytes(...)` applied to a list element above `0xff` -/
  | byteOutOfRange
  /-- `encode_length`: `NotImplementedError` for values with bit 7 set -/
  | lengthNotImplemented
  /-- `consume_length`: first octet `0xff` is reserved in X.690 -/
  | reservedLength
  /-- `consume_length`: first octet `0x80` is the indefinite form -/
  | indefiniteLength
  /-- `consume`: `ValueError` for an unsupported type octet -/
  | unknownTypeHeader (t : Nat)
  /-- `ValueError` raised by the per-class header checks; the first
  component is the expected header value as printed by the message -/
  | invalidTypeHeader (expected got : Nat)
  /-- `GetResponse.from_bytes`: `ValueError` for a declared length that
  differs from the available payload length -/
  | corruptPacketLength (expected got : Nat)
  /-- `SnmpError with message 'Error packet received!'` -/
  | snmpError
  /-- attribute access (`.value`, `.items`) on an object lacking it -/
  | attributeError
  /-- interpreter fuel exhausted; a modelling artifact that is
  unreachable for the fuel budgets supplied by the top-level wrappers -/
  | outOfFuel
deriving DecidableEq, Repr

/-- `encode_length` from `src/snmp/types.py`: the source raises
`NotImplementedError` when `value & 0b10000000` is non-zero and otherwise
returns the value unchanged. -/
def encode_length (value : Nat) : Except PyErr Nat :=
  if value &&& 128 ≠ 0 then .error .lengthNotImplemented else .ok value

/-- Python `int.from_bytes(l, 'big')` (unsigned big-endian). -/
def int_from_bytes_be (l : List Nat) : Nat :=
  l.foldl (fun a b => 256 * a + b) 0

/-- `consume_length` from `src/snmp/types.py`.  `data[0] ^ 0b10000000` is
kept literally as `d ^^^ 128`; the number of long-form value octets is
that same expression. -/
def consume_length : List Nat → Except PyErr (Nat × List Nat)
  | [] => .error .indexError
  | d :: rest =>
    if d = 255 then .error .reservedLength
    else if d &&& 128 = 0 then .ok (d, rest)
    else if d ^^^ 128 = 0 then .error .indefiniteLength
    else .ok (int_from_bytes_be (rest.take (d ^^^ 128)), rest.drop (d ^^^ 128))

/-- Python `bytes(l)`: succeeds exactly when every element is a byte. -/
def pyBytes (l : List Nat) : Except PyErr (List Nat) :=
  if l.all (fun b => b ≤ 255) then .ok l else .error .byteOutOfRange

/-- The `while remainder:` loop of `Integer.__bytes__`, producing the
little-endian byte digits `remainder & 0xff` while shifting by 8 bits
(`x &&& 255 = x % 256`, `x >>> 8 = x / 256`).  The first argument is
recursion fuel; `fuel ≥ remainder` always suffices since the remainder
strictly decreases. -/
def int_octets_loop : Nat → Nat → List Nat
  | 0, _ => []
  | fuel + 1, r => if r = 0 then [] else r % 256 :: int_octets_loop fuel (r / 256)

/-- The content octets produced by `Integer.__bytes__`: `[0]` for zero,
otherwise the little-endian digit list reversed into big-endian order. -/
def integer_octets (v : Nat) : List Nat :=
  if v = 0 then [0] else (int_octets_loop v v).reverse

/-- `Integer.__bytes__`: `bytes([HEADER, len(octets)] + octets)`. -/
def integer_bytes (v : Nat) : Except PyErr (List Nat) :=
  pyBytes (2 :: (integer_octets v).length :: integer_octets v)

/-- `Integer.from_bytes`: checks the `0x02` header, then converts the
*entire* remainder after the length octets (the source binds the second
component of `consume_length` to the name `value` and ignores the
declared length). -/
def integer_from_bytes (data : List Nat) : Except PyErr Nat :=
  match data with
  | [] => .error .indexError
  | h :: t =>
    if h ≠ 2 then .error (.invalidTypeHeader 2 h)
    else do
      let (_, value) ← consume_length t
      .ok (int_from_bytes_be value)

/-- The `while value:` loop of `Oid.encode_large_value`, producing the
little-endian continuation digits `value & 0b1111111 | 0b10000000` while
shifting by 7 bits.  For `w < 128` the bitwise OR with `0b10000000`
equals adding `128`, so the digit is written `w % 128 + 128`
(`x &&& 127 = x % 128`, `x >>> 7 = x / 128`).  Fuel `≥ w` suffices. -/
def oid_digits_loop : Nat → Nat → List Nat
  | 0, _ => []
  | fuel + 1, w => if w = 0 then [] else (w % 128 + 128) :: oid_digits_loop fuel (w / 128)

/-- `Oid.encode_large_value`: values up to 127 stay a single octet;
larger values become the reversed continuation digits of `value >> 7`
followed by the low octet `value & 0b1111111`. -/
def encode_large_value (value : Nat) : List Nat :=
  if value ≤ 127 then [value]
  else (oid_digits_loop value (value / 128)).reverse ++ [value % 128]

/-- The `while current_char > 127:` loop of `Oid.decode_large_value`:
collects `current_char ^ 0b10000000` into `buffer` until a character of
at most 127 arrives, pulling further characters from the stream.
`StopIteration` propagates when the stream runs dry. -/
def dlv_loop : List Nat → Nat → List Nat → Except PyErr (List Nat × Nat × List Nat)
  | buffer, c, s =>
    if c > 127 then
      match s with
      | [] => .error .stopIteration
      | d :: rest => dlv_loop (buffer ++ [c ^^^ 128]) d rest
    else .ok (buffer, c, s)

/-- The indexed summation loop of `Oid.decode_large_value`:
`for i, digit in enumerate(reversed(buffer)): total += digit * 128**(i+1)`. -/
def recombine_loop : Nat → List Nat → Nat
  | _, [] => 0
  | i, d :: rest => d * 128 ^ (i + 1) + recombine_loop (i + 1) rest

/-- `Oid.decode_large_value`: run the collection loop, then recombine the
buffered high digits with the final character. -/
def decode_large_value (c : Nat) (s : List Nat) : Except PyErr (Nat × List Nat) :=
  (dlv_loop [] c s).map fun r =>
    (r.2.1 + recombine_loop 0 r.1.reverse, r.2.2)

/-- The `for char in remaining:` loop of `Oid.from_bytes`: characters of
at most 127 are taken verbatim, larger ones are collapsed through
`decode_large_value`, which consumes further characters from the same
iterator.  Fuel `≥ length + 1` suffices since every step consumes at
least one character. -/
def decode_identifiers : Nat → List Nat → Except PyErr (List Nat)
  | 0, _ => .error .outOfFuel
  | _ + 1, [] => .ok []
  | fuel + 1, c :: rest =>
    if c > 127 then
      match decode_large_value c rest with
      | .error e => .error e
      | .ok (v, rest2) => (decode_identifiers fuel rest2).map fun t => v :: t
    else (decode_identifiers fuel rest).map fun t => c :: t

/-- The value object built by `Oid.__init__`: the original identifiers,
the collapsed sub-identifier octets, and the encoded length field. -/
structure OidV where
  identifiers : List Nat
  collapsed : List Nat
  length : Nat
deriving DecidableEq, Repr

/-- The collapsed octets computed by `Oid.__init__`: the first two
components pack into `40*first + second`, every further component is
expanded by `encode_large_value`. -/
def oid_collapsed (first second : Nat) (rest : List Nat) : List Nat :=
  (40 * first + second) :: (rest.map encode_large_value).flatten

/-- `Oid.__init__` on a list of integer identifiers: unpacks the first
two components (raising `IndexError` when fewer than two are present)
and encodes the length of the collapsed octets, which can raise
`NotImplementedError` via `encode_length`.  The dead local
`exploded_high_values` of the source is omitted. -/
def Oid.mk_model (identifiers : List Nat) : Except PyErr OidV :=
  match identifiers with
  | first :: second :: rest =>
    (encode_length (oid_collapsed first second rest).length).map fun len =>
      ⟨identifiers, oid_collapsed first second rest, len⟩
  | _ => .error .indexError

/-- `Oid.__bytes__`: `bytes([HEADER, self.length] + collapsed)`,
composed with the constructor. -/
def Oid.to_bytes (identifiers : List Nat) : Except PyErr (List Nat) :=
  (Oid.mk_model identifiers).bind fun o => pyBytes (6 :: o.length :: o.collapsed)

/-- `Oid.from_bytes`: checks the `0x06` header (the source's error
message prints an expected header of `0x02`, which is kept as the
carried value), decodes the length field, splits the first octet into
`identifiers[0] // 40` and `identifiers[0] % 40`, decodes the remaining
sub-identifiers, and rebuilds the value through `Oid.__init__`. -/
def Oid.from_bytes (data : List Nat) : Except PyErr OidV :=
  match data with
  | [] => .error .indexError
  | h :: t =>
    if h ≠ 6 then .error (.invalidTypeHeader 2 h)
    else do
      let (_, identifiers) ← consume_length t
      match identifiers with
      | [] => .error .indexError
      | i0 :: irest => do
        let out ← decode_identifiers (irest.length + 1) irest
        Oid.mk_model (i0 / 40 :: i0 % 40 :: out)

/-- The values produced by `consume`.  `Oid` objects keep the fields of
`OidV`; a decoded `GetResponse` stores the request id object (which is
`None` when the corresponding TLV was a `0x05` Null) and the extracted
varbind value. -/
inductive Value where
  | int (value : Nat)
  | str (value : List Nat)
  | list (items : List Value)
  | oid (identifiers collapsed : List Nat) (length : Nat)
  | getResponse (requestId : Option Value) (value : Value)
deriving Repr

/-- `String.from_bytes`: checks the `0x04` header, decodes the length
field, then ASCII-decodes the *entire* remainder (the declared length is
ignored); the constructor re-encodes the length of the decoded text via
`encode_length`. -/
def string_from_bytes (data : List Nat) : Except PyErr Value :=
  match data with
  | [] => .error .indexError
  | h :: t =>
    if h ≠ 4 then .error (.invalidTypeHeader 4 h)
    else do
      let (_, text) ← consume_length t
      if text.all (fun b => b ≤ 127) then
        (encode_length text.length).map fun _ => .str text
      else .error .unicodeDecodeError

/-- Truthiness test of `error_code.value` in `GetResponse.from_bytes`.
`consume` yields `None` for a `0x05` TLV and `None.value` raises
`AttributeError`; `List`, `Oid` objects have no `value` attribute;
`Integer.value` is its integer, `String.value` its text, both with
Python truthiness; `GetResponse.value` is another value object, which
(defining neither `__bool__` nor `__len__`) is always truthy. -/
def errValueTruthy : Option Value → Except PyErr Bool
  | none => .error .attributeError
  | some (.int n) => .ok (decide (n ≠ 0))
  | some (.str s) => .ok (decide (s ≠ []))
  | some (.list _) => .error .attributeError
  | some (.oid _ _ _) => .error .attributeError
  | some (.getResponse _ _) => .ok true

/-- The tail of `GetResponse.from_bytes`:
`values.items[0].items[1]` with the Python errors of each step.
An object that is not a `List` has no `items` attribute; too-short item
lists raise `IndexError`. -/
def extractVarbind (requestId : Option Value) : Option Value → Except PyErr Value
  | some (.list items) =>
    match items with
    | [] => .error .indexError
    | vb0 :: _ =>
      match vb0 with
      | .list inner =>
        match inner with
        | _ :: v1 :: _ => .ok (.getResponse requestId v1)
        | _ => .error .indexError
      | _ => .error .attributeError
  | _ => .error .attributeError

mutual

/-- `consume` from `src/snmp/types.py`, with explicit recursion fuel:
reads the type octet, decodes the length, slices
`chunk = data[:length+2]`, dispatches on the type octet (a `0x05` Null
yields Python `None`, modelled as `none`), and returns the value
together with `remainder[length:]`. -/
def consumeF : Nat → List Nat → Except PyErr (Option Value × List Nat)
  | 0, _ => .error .outOfFuel
  | fuel + 1, data =>
    match data with
    | [] => .error .indexError
    | t :: rest => do
      let (length, remainder) ← consume_length rest
      let chunk := data.take (length + 2)
      let value ←
        if t = 2 then (integer_from_bytes chunk).map fun n => some (.int n)
        else if t = 4 then (string_from_bytes chunk).map some
        else if t = 48 then (listFromBytesF fuel chunk).map some
        else if t = 5 then .ok none
        else if t = 162 then (getResponseFromBytesF fuel chunk).map some
        else if t = 6 then
          (Oid.from_bytes chunk).map fun o => some (.oid o.identifiers o.collapsed o.length)
        else .error (.unknownTypeHeader t)
      .ok (value, remainder.drop length)

/-- `List.from_bytes`: checks the `0x30` header, decodes the length
field and runs the consumption loop over the entire remainder (the
declared length is ignored; the caller's chunk slicing bounds it). -/
def listFromBytesF : Nat → List Nat → Except PyErr Value
  | 0, _ => .error .outOfFuel
  | fuel + 1, data =>
    match data with
    | [] => .error .indexError
    | h :: t =>
      if h ≠ 48 then .error (.invalidTypeHeader 48 h)
      else do
        let (_, content) ← consume_length t
        (listLoopF fuel content).map fun items => .list items

/-- The `while content:` loop of `List.from_bytes`: consume values until
the content is exhausted, stopping early (without recording) when a
`None` (Null TLV) is produced. -/
def listLoopF : Nat → List Nat → Except PyErr (List Value)
  | 0, _ => .error .outOfFuel
  | _ + 1, [] => .ok []
  | fuel + 1, c :: cs => do
    let (value, content) ← consumeF fuel (c :: cs)
    match value with
    | none => .ok []
    | some v => (listLoopF fuel content).map fun items => v :: items

/-- `GetResponse.from_bytes`: checks the `0xa2` header, decodes the
length field, raises the corrupt-packet `ValueError` when the declared
length differs from the available payload, consumes request id, error
code and error index, raises `SnmpError` for a truthy error code, then
consumes the varbind list and extracts `values.items[0].items[1]`. -/
def getResponseFromBytesF : Nat → List Nat → Except PyErr Value
  | 0, _ => .error .outOfFuel
  | fuel + 1, data =>
    match data with
    | [] => .error .indexError
    | h :: t =>
      if h ≠ 162 then .error (.invalidTypeHeader 162 h)
      else do
        let (expectedLength, payload) ← consume_length t
        if payload.length ≠ expectedLength then
          .error (.corruptPacketLength expectedLength payload.length)
        else do
          let (requestId, d2) ← consumeF fuel payload
          let (errorCode, d3) ← consumeF fuel d2
          let (_, d4) ← consumeF fuel d3
          let truthy ← errValueTruthy errorCode
          if truthy then .error .snmpError
          else do
            let (values, _) ← consumeF fuel d4
            extractVarbind requestId values

end

/-- Top-level `consume` with a fuel budget that the recursion (which
strictly shrinks the data every two levels) can never exhaust. -/
def consume (data : List Nat) : Except PyErr (Option Value × List Nat) :=
  consumeF (2 * data.length + 2) data

/-- Top-level `GetResponse.from_bytes` with an inexhaustible fuel
budget. -/
def GetResponse.from_bytes (data : List Nat) : Except PyErr Value :=
  getResponseFromBytesF (2 * data.length + 2) data

/-- Convenience repackaging of `dlv_loop` taking the current character
from the front of the list, used to reason about the collection loop
over a whole octet stream. -/
def dlv_run (buffer : List Nat) : List Nat → Except PyErr (List Nat × Nat × List Nat)
  | [] => .error .stopIteration
  | c :: s => dlv_loop buffer c s

/-- Modelled from the claim's words, for comparison only: the value
denoted by a big-endian two's-complement octet string (negative when the
top bit of the first octet is set). -/
def spec_twos_complement_value (l : List Nat) : Int :=
  match l with
  | [] => 0
  | d :: _ =>
    if 128 ≤ d then (int_from_bytes_be l : Int) - (256 : Int) ^ l.length
    else (int_from_bytes_be l : Int)

/-! ### Helper lemmas about byte-level bit operations -/

theorem and128_eq_zero_of_lt {n : Nat} (h : n < 128) : n &&& 128 = 0 := by
  have hb : n.testBit 7 = false := Nat.testBit_lt_two_pow h
  have h2 : n &&& 2 ^ 7 = 0 := by rw [Nat.and_two_pow]; simp [hb]
  simpa using h2

set_option maxRecDepth 4096 in
theorem and128_ne_zero_of_high : ∀ e, 128 ≤ e → e < 256 → e &&& 128 ≠ 0 := by decide

set_option maxRecDepth 4096 in
theorem xor128_of_high : ∀ e, 128 ≤ e → e < 256 → e ^^^ 128 = e - 128 := by decide

/-! ### C4 and C9: `encode_length` -/

/-- C4: `encode_length(n)` does return the single byte `n` for every
`n < 128` (in particular at 127), but at 128 the code raises
`NotImplementedError` instead of producing the long form
`[0x81, 0x80]` that the claim promises: the long-form encode path is an
unimplemented stub. -/
theorem encode_length_boundary_behavior :
    encode_length 127 = .ok 127
    ∧ encode_length 128 = .error .lengthNotImplemented := by
  constructor <;> rfl

/-- C9: `encode_length` rejects exactly the inputs whose bit 7 is set,
and returns every other input unchanged, so over-long lengths with a
clear bit 7 (such as 256) pass through without any error. -/
theorem encode_length_rejects_exactly_bit7 (n : Nat) :
    (encode_length n = .error .lengthNotImplemented ↔ n &&& 128 ≠ 0)
    ∧ (n &&& 128 = 0 → encode_length n = .ok n) := by
  unfold encode_length
  by_cases h : n &&& 128 = 0 <;> simp [h]

/-- Witness for C9 at the concrete over-long input 256 (bit 7 clear):
the value is returned unchanged. -/
theorem encode_length_rejects_exactly_bit7_witness :
    encode_length 256 = .ok 256 :=
  (encode_length_rejects_exactly_bit7 256).2 (by decide)

/-! ### C5: `consume_length` -/

/-- C5: `consume_length` returns a first octet with clear top bit
directly; a long-form first octet `0x80 + N` (N in 1..126) yields the
big-endian integer over the following `N` octets; the reserved octet
`0xff` and the indefinite-form octet `0x80` raise. -/
theorem consume_length_forms (d N : Nat) (rest : List Nat)
    (hd : d &&& 128 = 0) (h1 : 1 ≤ N) (h2 : N ≤ 126) (hN : N ≤ rest.length) :
    consume_length (d :: rest) = .ok (d, rest)
    ∧ consume_length ((128 + N) :: rest)
        = .ok (int_from_bytes_be (rest.take N), rest.drop N)
    ∧ (rest.take N).length = N
    ∧ consume_length (255 :: rest) = .error .reservedLength
    ∧ consume_length (128 :: rest) = .error .indefiniteLength := by
  have hd255 : d ≠ 255 := by
    intro h; subst h; exact absurd hd (by decide)
  have hhigh : (128 + N) &&& 128 ≠ 0 :=
    and128_ne_zero_of_high _ (by omega) (by omega)
  have hxor : (128 + N) ^^^ 128 = N := by
    have := xor128_of_high (128 + N) (by omega) (by omega)
    omega
  refine ⟨?_, ?_, ?_, ?_, ?_⟩
  · simp [consume_length, hd255, hd]
  · have hne255 : ¬(128 + N = 255) := by omega
    have hxne : ¬((128 + N) ^^^ 128 = 0) := by rw [hxor]; omega
    simp [consume_length, hne255, hhigh, hxne, hxor]
    omega
  · simp [List.length_take, Nat.min_eq_left hN]
  · rfl
  · rfl

/-- Witness for C5: short form 5, long form `0x82` over `[1, 2]`
(value 258), and the two failing octets. -/
theorem consume_length_forms_witness :
    consume_length [5, 1, 2, 3] = .ok (5, [1, 2, 3])
    ∧ consume_length [130, 1, 2, 3] = .ok (258, [3])
    ∧ ([1, 2, 3].take 2).length = 2
    ∧ consume_length [255, 1, 2, 3] = .error .reservedLength
    ∧ consume_length [128, 1, 2, 3] = .error .indefiniteLength :=
  consume_length_forms 5 2 [1, 2, 3] (by decide) (by decide) (by decide) (by decide)

/-! ### C6: declared length versus available payload -/

/-- C6: only `GetResponse.from_bytes` compares the declared length with
the available payload; the generic TLV decoder `consume` silently
accepts a mismatch, as on `[0x02, 0x05, 0x01]`, whose declared length 5
exceeds the single available payload byte yet decodes to `Integer(1)`
with no error. -/
theorem consume_accepts_length_mismatch :
    consume [2, 5, 1] = .ok (some (.int 1), [])
    ∧ GetResponse.from_bytes [162, 5, 2, 1, 0] = .error (.corruptPacketLength 5 3) := by
  constructor <;> rfl

/-! ### C7: unsupported type octets -/

/-- C7 amended: for an unsupported leading type octet the decoder never
returns a value, but the unknown-type `ValueError` naming the octet is
reached only when the length field itself parses; a malformed length
field raises its own error first. -/
theorem consume_unknown_type_fails (t : Nat) (rest : List Nat)
    (h2 : t ≠ 2) (h4 : t ≠ 4) (h48 : t ≠ 48) (h5 : t ≠ 5)
    (h162 : t ≠ 162) (h6 : t ≠ 6) :
    (∀ r, consume (t :: rest) ≠ .ok r)
    ∧ (∀ x, consume_length rest = .ok x →
        consume (t :: rest) = .error (.unknownTypeHeader t)) := by
  have hfuel : 2 * (t :: rest).length + 2 = (2 * rest.length + 3) + 1 := by
    simp [List.length_cons]; omega
  unfold consume
  rw [hfuel]
  cases hcl : consume_length rest with
  | error e =>
    have hres : consumeF (2 * rest.length + 3 + 1) (t :: rest) = .error e := by
      simp [consumeF, hcl, bind, Except.bind]
    rw [hres]
    refine ⟨fun r h => by simp at h, fun x hx => ?_⟩
    simp at hx
  | ok x =>
    have hres : consumeF (2 * rest.length + 3 + 1) (t :: rest)
        = .error (.unknownTypeHeader t) := by
      simp [consumeF, hcl, bind, Except.bind, h2, h4, h48, h5, h162, h6]
    rw [hres]
    exact ⟨fun r h => by simp at h, fun x hx => rfl⟩

/-- Witness for C7 (amended) at the unsupported octet 7 with a valid
length field. -/
theorem consume_unknown_type_fails_witness :
    consume [7, 0] = .error (.unknownTypeHeader 7) :=
  (consume_unknown_type_fails 7 [0] (by decide) (by decide) (by decide)
    (by decide) (by decide) (by decide)).2 (0, []) rfl

/-- Counterexample for C7 as stated: on the buffer `[0x07]` the leading
type octet is unsupported, yet the failure is the `IndexError` from the
missing length octet, not the unknown-type `ValueError`. -/
theorem consume_unknown_type_counterexample :
    consume [7] = .error .indexError := by
  rfl

/-! ### C10: `Integer.from_bytes` is unsigned -/

/-- C10: whenever `Integer.from_bytes` accepts a buffer, the value is
the unsigned big-endian interpretation of the bytes following the length
octets, hence non-negative. -/
theorem integer_decode_unsigned_nonneg (data : List Nat) (n : Nat)
    (h : integer_from_bytes data = .ok n) :
    0 ≤ (n : Int)
    ∧ ∃ len rest, consume_length data.tail = .ok (len, rest)
        ∧ n = int_from_bytes_be rest := by
  refine ⟨Int.ofNat_nonneg n, ?_⟩
  match data with
  | [] => simp [integer_from_bytes] at h
  | h0 :: t =>
    simp only [integer_from_bytes] at h
    by_cases h2 : h0 ≠ 2
    · simp [h2] at h
    · simp only [h2, if_false] at h
      cases hcl : consume_length t with
      | error e => rw [hcl] at h; simp [bind, Except.bind] at h
      | ok x =>
        rw [hcl] at h
        simp only [bind, Except.bind, Except.ok.injEq] at h
        exact ⟨x.1, x.2, by simpa using hcl, h.symm⟩

/-- Witness for C10 at `[0x02, 0x01, 0x80]`: the single content octet
`0x80` has its top bit set and still decodes to the non-negative 128. -/
theorem integer_decode_unsigned_nonneg_witness :
    integer_from_bytes [2, 1, 128] = .ok 128
    ∧ (0 ≤ ((128 : Nat) : Int)
      ∧ ∃ len rest, consume_length ([2, 1, 128] : List Nat).tail = .ok (len, rest)
          ∧ 128 = int_from_bytes_be rest) :=
  ⟨rfl, integer_decode_unsigned_nonneg [2, 1, 128] 128 rfl⟩

/-! ### C3: the exactly-one-varbind rule is not enforced -/

/-- C3: decoding does not enforce the exactly-one-varbind rule.  A
response whose varbind list holds two varbinds decodes without any
error, silently returning the first varbind's value; a zero-varbind
response fails only with the indexing error of `values.items[0]`, not a
dedicated protocol error. -/
theorem getResponse_two_varbinds_returns_first :
    GetResponse.from_bytes ([162, 27] ++ [2, 1, 0] ++ [2, 1, 0] ++ [2, 1, 0]
        ++ [48, 16] ++ [48, 6, 6, 1, 43, 2, 1, 1] ++ [48, 6, 6, 1, 43, 2, 1, 2])
      = .ok (.getResponse (some (.int 0)) (.int 1))
    ∧ GetResponse.from_bytes [162, 11, 2, 1, 0, 2, 1, 0, 2, 1, 0, 48, 0]
      = .error .indexError := by
  constructor <;> rfl

/-! ### C8: `Integer.__bytes__` -/

theorem int_octets_loop_zero (fuel : Nat) : int_octets_loop fuel 0 = [] := by
  cases fuel <;> rfl

theorem int_octets_loop_be (fuel v : Nat) (h : v ≤ fuel) :
    int_from_bytes_be (int_octets_loop fuel v).reverse = v := by
  induction fuel generalizing v with
  | zero =>
    interval_cases v
    rfl
  | succ f ih =>
    by_cases hv : v = 0
    · subst hv; rfl
    · have hdiv : v / 256 ≤ f := by
        have : v / 256 < v := Nat.div_lt_self (by omega) (by omega)
        omega
      simp only [int_octets_loop, hv, if_false, List.reverse_cons]
      unfold int_from_bytes_be at ih ⊢
      rw [List.foldl_append, ih _ hdiv]
      simp [Nat.div_add_mod]

theorem int_octets_loop_head_pos (fuel v : Nat) (h1 : 1 ≤ v) (h : v ≤ fuel) :
    ∃ d t, (int_octets_loop fuel v).reverse = d :: t ∧ 1 ≤ d := by
  induction fuel generalizing v with
  | zero => omega
  | succ f ih =>
    by_cases hsmall : v / 256 = 0
    · have hv : v < 256 := by omega
      have hne : ¬v = 0 := by omega
      refine ⟨v % 256, [], ?_, ?_⟩
      · simp [int_octets_loop, hne, hsmall, int_octets_loop_zero]
      · omega
    · have hdiv : v / 256 ≤ f := by
        have : v / 256 < v := Nat.div_lt_self (by omega) (by omega)
        omega
      obtain ⟨d, t, hdt, hd⟩ := ih (v / 256) (by omega) hdiv
      have hne : ¬v = 0 := by omega
      refine ⟨d, t ++ [v % 256], ?_, hd⟩
      simp [int_octets_loop, hne, List.reverse_cons, hdt]

/-- C8 amended: the `Integer` encoder emits the minimal big-endian
*unsigned* octets of the value (zero as the single octet `0x00`, no
leading zero octet otherwise, even when the top bit of the first octet
is set), not a two's-complement encoding. -/
theorem integer_encoding_minimal_unsigned (n : Nat) :
    int_from_bytes_be (integer_octets n) = n
    ∧ (n = 0 → integer_octets n = [0])
    ∧ (1 ≤ n → ∃ d t, integer_octets n = d :: t ∧ 1 ≤ d) := by
  refine ⟨?_, ?_, ?_⟩
  · by_cases h : n = 0
    · subst h; rfl
    · simpa [integer_octets, h] using int_octets_loop_be n n le_rfl
  · intro h; simp [integer_octets, h]
  · intro h
    have hne : ¬n = 0 := by omega
    simpa [integer_octets, hne] using int_octets_loop_head_pos n n h le_rfl

/-- Witness for C8 (amended) at 128: value-correct, and the leading
octet is non-zero. -/
theorem integer_encoding_minimal_unsigned_witness :
    int_from_bytes_be (integer_octets 128) = 128
    ∧ (∃ d t, integer_octets 128 = d :: t ∧ 1 ≤ d) :=
  ⟨(integer_encoding_minimal_unsigned 128).1,
    (integer_encoding_minimal_unsigned 128).2.2 (by decide)⟩

/-- Counterexample for C8 as stated: for the value 128 the encoder emits
the single octet `0x80`, whose two's-complement reading is `-128`, so
the output is not a two's-complement encoding of 128. -/
theorem integer_encoding_twos_complement_counterexample :
    integer_octets 128 = [128]
    ∧ spec_twos_complement_value (integer_octets 128) = -128
    ∧ spec_twos_complement_value (integer_octets 128) ≠ (128 : Int) := by
  refine ⟨rfl, by decide, by decide⟩

/-! ### C1: object identifier round trip -/

theorem oid_digits_loop_nil (fuel : Nat) : oid_digits_loop fuel 0 = [] := by
  cases fuel <;> rfl

theorem oid_digits_loop_irrel (f1 : Nat) :
    ∀ f2 w, w ≤ f1 → w ≤ f2 → oid_digits_loop f1 w = oid_digits_loop f2 w := by
  induction f1 with
  | zero =>
    intro f2 w h1 _
    have : w = 0 := by omega
    subst this
    rw [oid_digits_loop_nil, oid_digits_loop_nil]
  | succ f ih =>
    intro f2 w h1 h2
    by_cases hw : w = 0
    · subst hw; rw [oid_digits_loop_nil, oid_digits_loop_nil]
    · obtain ⟨f2', rfl⟩ : ∃ f2', f2 = f2' + 1 := ⟨f2 - 1, by omega⟩
      have hdiv : w / 128 < w := Nat.div_lt_self (by omega) (by omega)
      simp only [oid_digits_loop, hw, if_false]
      rw [ih f2' (w / 128) (by omega) (by omega)]

theorem oid_digits_loop_mem (fuel : Nat) :
    ∀ w x, x ∈ oid_digits_loop fuel w → 128 ≤ x ∧ x ≤ 255 := by
  induction fuel with
  | zero => intro w x hx; simp [oid_digits_loop] at hx
  | succ f ih =>
    intro w x hx
    by_cases hw : w = 0
    · subst hw; simp [oid_digits_loop] at hx
    · simp only [oid_digits_loop, hw, if_false, List.mem_cons] at hx
      rcases hx with h | h
      · subst h; constructor <;> omega
      · exact ih _ _ h

theorem dlv_run_low (buffer : List Nat) (c : Nat) (s : List Nat) (hc : c ≤ 127) :
    dlv_run buffer (c :: s) = .ok (buffer, c, s) := by
  show dlv_loop buffer c s = .ok (buffer, c, s)
  unfold dlv_loop
  simp [Nat.not_lt.mpr hc]

theorem dlv_run_high (buffer : List Nat) (c : Nat) (s : List Nat) (hc : 127 < c) :
    dlv_run buffer (c :: s) = dlv_run (buffer ++ [c ^^^ 128]) s := by
  show dlv_loop buffer c s = _
  unfold dlv_loop
  cases s with
  | nil => simp [dlv_run, hc]
  | cons d rest => simp [dlv_run, hc]

theorem dlv_run_digits (w : Nat) :
    ∀ buffer rest,
      dlv_run buffer ((oid_digits_loop w w).reverse ++ rest)
        = dlv_run (buffer ++ ((oid_digits_loop w w).reverse.map fun x => x ^^^ 128)) rest := by
  induction w using Nat.strong_induction_on with
  | _ w ih =>
    intro buffer rest
    by_cases hw : w = 0
    · subst hw; simp [oid_digits_loop_nil]
    · obtain ⟨w', rfl⟩ : ∃ w', w = w' + 1 := ⟨w - 1, by omega⟩
      have hdiv : (w' + 1) / 128 < w' + 1 := Nat.div_lt_self (by omega) (by omega)
      have hD : oid_digits_loop (w' + 1) (w' + 1)
          = ((w' + 1) % 128 + 128)
            :: oid_digits_loop ((w' + 1) / 128) ((w' + 1) / 128) := by
        simp only [oid_digits_loop]
        rw [if_neg hw,
          oid_digits_loop_irrel w' ((w' + 1) / 128) ((w' + 1) / 128) (by omega) le_rfl]
      rw [hD]
      simp only [List.reverse_cons, List.append_assoc, List.map_append]
      rw [ih _ hdiv]
      rw [List.singleton_append]
      rw [dlv_run_high _ _ _ (by omega)]
      simp [List.append_assoc]

theorem oid_digits_loop_unfold (w : Nat) (hw : w ≠ 0) :
    oid_digits_loop w w
      = (w % 128 + 128) :: oid_digits_loop (w / 128) (w / 128) := by
  obtain ⟨w', rfl⟩ : ∃ w', w = w' + 1 := ⟨w - 1, by omega⟩
  simp only [oid_digits_loop]
  rw [if_neg hw,
    oid_digits_loop_irrel w' ((w' + 1) / 128) ((w' + 1) / 128)
      (by
        have : (w' + 1) / 128 < w' + 1 := Nat.div_lt_self (by omega) (by omega)
        omega)
      le_rfl]

theorem recombine_loop_shift (l : List Nat) :
    ∀ i, recombine_loop (i + 1) l = 128 * recombine_loop i l := by
  induction l with
  | nil => intro i; rfl
  | cons d rest ih =>
    intro i
    simp only [recombine_loop]
    rw [ih (i + 1)]
    ring

theorem recombine_digits (w : Nat) :
    recombine_loop 0 ((oid_digits_loop w w).map fun x => x ^^^ 128) = 128 * w := by
  induction w using Nat.strong_induction_on with
  | _ w ih =>
    by_cases hw : w = 0
    · subst hw; rfl
    · have hdiv : w / 128 < w := Nat.div_lt_self (by omega) (by omega)
      rw [oid_digits_loop_unfold w hw]
      have hxor : (w % 128 + 128) ^^^ 128 = w % 128 := by
        have h1 : w % 128 < 128 := Nat.mod_lt _ (by omega)
        have := xor128_of_high (w % 128 + 128) (by omega) (by omega)
        omega
      simp only [List.map_cons, recombine_loop, hxor]
      rw [recombine_loop_shift, ih _ hdiv]
      have := Nat.div_add_mod w 128
      ring_nf
      omega

theorem elv_le_255 (v : Nat) : ∀ x ∈ encode_large_value v, x ≤ 255 := by
  intro x hx
  unfold encode_large_value at hx
  by_cases hv : v ≤ 127
  · rw [if_pos hv] at hx
    simp at hx
    omega
  · rw [if_neg hv] at hx
    simp only [List.mem_append, List.mem_reverse, List.mem_singleton] at hx
    rcases hx with h | h
    · exact (oid_digits_loop_mem _ _ _ h).2
    · have : v % 128 < 128 := Nat.mod_lt _ (by omega)
      omega

theorem elv_canonical (v : Nat) (hv : 127 < v) :
    encode_large_value v
      = (oid_digits_loop (v / 128) (v / 128)).reverse ++ [v % 128] := by
  unfold encode_large_value
  rw [if_neg (by omega)]
  rw [oid_digits_loop_irrel v (v / 128) (v / 128) (Nat.div_le_self _ _) le_rfl]

theorem dlv_encoded (v : Nat) (hv : 127 < v) (c : Nat) (s tail : List Nat)
    (hcs : c :: s = encode_large_value v ++ tail) :
    127 < c ∧ decode_large_value c s = .ok (v, tail) := by
  have hq1 : 1 ≤ v / 128 := (Nat.one_le_div_iff (by omega)).mpr (by omega)
  rw [elv_canonical v hv] at hcs
  have hD := oid_digits_loop_unfold (v / 128) (by omega)
  cases hrev : (oid_digits_loop (v / 128) (v / 128)).reverse with
  | nil =>
    rw [List.reverse_eq_nil_iff] at hrev
    rw [hrev] at hD
    cases hD
  | cons e es =>
    rw [hrev] at hcs
    simp only [List.cons_append, List.cons.injEq] at hcs
    obtain ⟨rfl, hs⟩ := hcs
    have hmem : c ∈ oid_digits_loop (v / 128) (v / 128) := by
      rw [← List.mem_reverse, hrev]; exact List.mem_cons_self _ _
    have hc : 127 < c := by
      have := oid_digits_loop_mem _ _ _ hmem
      omega
    refine ⟨hc, ?_⟩
    have hrun : dlv_loop [] c s
        = dlv_run [] ((oid_digits_loop (v / 128) (v / 128)).reverse
            ++ (v % 128 :: tail)) := by
      rw [hrev, hs]
      simp [dlv_run]
    unfold decode_large_value
    rw [hrun, dlv_run_digits, dlv_run_low _ _ _ (by
      have : v % 128 < 128 := Nat.mod_lt _ (by omega)
      omega)]
    simp only [Except.map, List.nil_append]
    have hrevmap :
        ((oid_digits_loop (v / 128) (v / 128)).reverse.map fun x => x ^^^ 128).reverse
          = (oid_digits_loop (v / 128) (v / 128)).map fun x => x ^^^ 128 := by
      rw [← List.map_reverse, List.reverse_reverse]
    rw [hrevmap, recombine_digits]
    have hdm := Nat.div_add_mod v 128
    have hv' : v % 128 + 128 * (v / 128) = v := by omega
    rw [hv']

theorem elv_length_two (v : Nat) (hv : 127 < v) :
    2 ≤ (encode_large_value v).length := by
  rw [elv_canonical v hv]
  have hq1 : 1 ≤ v / 128 := (Nat.one_le_div_iff (by omega)).mpr (by omega)
  rw [oid_digits_loop_unfold (v / 128) (by omega)]
  simp

theorem decode_identifiers_encoded (vs : List Nat) :
    ∀ fuel, ((vs.map encode_large_value).flatten).length < fuel →
      decode_identifiers fuel (vs.map encode_large_value).flatten = .ok vs := by
  induction vs with
  | nil =>
    intro fuel h
    obtain ⟨f, rfl⟩ : ∃ f, fuel = f + 1 := ⟨fuel - 1, by omega⟩
    rfl
  | cons v vs' ih =>
    intro fuel h
    simp only [List.map_cons, List.flatten_cons] at h ⊢
    by_cases hv : v ≤ 127
    · have helv : encode_large_value v = [v] := by
        unfold encode_large_value; rw [if_pos hv]
      rw [helv] at h ⊢
      obtain ⟨f, rfl⟩ : ∃ f, fuel = f + 1 := ⟨fuel - 1, by omega⟩
      simp only [List.singleton_append, List.length_cons] at h ⊢
      simp only [decode_identifiers, Nat.not_lt.mpr hv, if_false]
      rw [ih f (by omega)]
      rfl
    · push_neg at hv
      have hlen2 := elv_length_two v hv
      cases helv : encode_large_value v with
      | nil => rw [helv] at hlen2; simp at hlen2
      | cons c es =>
        simp only [List.cons_append]
        obtain ⟨f, rfl⟩ : ∃ f, fuel = f + 1 := ⟨fuel - 1, by omega⟩
        have hcs : c :: (es ++ (vs'.map encode_large_value).flatten)
            = encode_large_value v ++ (vs'.map encode_large_value).flatten := by
          rw [helv]; rfl
        obtain ⟨hc, hdec⟩ :=
          dlv_encoded v hv c (es ++ (vs'.map encode_large_value).flatten)
            ((vs'.map encode_large_value).flatten) hcs
        simp only [decode_identifiers, hc, if_pos]
        rw [hdec]
        show Except.map (fun t => v :: t)
            (decode_identifiers f (vs'.map encode_large_value).flatten)
          = Except.ok (v :: vs')
        have hflen : ((vs'.map encode_large_value).flatten).length < f := by
          rw [helv] at h
          simp only [List.length_append, List.length_cons] at h
          simp only [List.length_cons] at hlen2
          rw [helv] at hlen2
          simp only [List.length_cons] at hlen2
          omega
        rw [ih f hflen]
        rfl

theorem oid_collapsed_le_255 (a b : Nat) (rest : List Nat)
    (hab : 40 * a + b ≤ 255) : ∀ x ∈ oid_collapsed a b rest, x ≤ 255 := by
  intro x hx
  unfold oid_collapsed at hx
  rcases List.mem_cons.mp hx with h | h
  · omega
  · obtain ⟨l, hl, hxl⟩ := List.mem_flatten.mp h
    obtain ⟨v, _, rfl⟩ := List.mem_map.mp hl
    exact elv_le_255 v x hxl

/-- C1 amended: the object-identifier round trip
`Oid.from_bytes(bytes(Oid(ids)))` reproduces the identifier list —
components above 127 included — provided the second component is below
40, the packed first octet `40*first + second` fits in one byte, and the
collapsed encoding stays below the 128-octet length limit of the
short-form-only `encode_length`. -/
theorem oid_roundtrip_collapsible (a b : Nat) (rest : List Nat)
    (hb : b < 40) (hab : 40 * a + b ≤ 255)
    (hlen : (oid_collapsed a b rest).length ≤ 127) :
    ((Oid.to_bytes (a :: b :: rest)).bind Oid.from_bytes).map OidV.identifiers
      = .ok (a :: b :: rest) := by
  have hel : encode_length (oid_collapsed a b rest).length
      = .ok (oid_collapsed a b rest).length := by
    unfold encode_length
    rw [if_neg]
    simp [and128_eq_zero_of_lt (show (oid_collapsed a b rest).length < 128 by omega)]
  have hmk : Oid.mk_model (a :: b :: rest)
      = .ok ⟨a :: b :: rest, oid_collapsed a b rest,
          (oid_collapsed a b rest).length⟩ := by
    show Except.map _ (encode_length (oid_collapsed a b rest).length) = _
    rw [hel]
    rfl
  have hpy : pyBytes (6 :: (oid_collapsed a b rest).length :: oid_collapsed a b rest)
      = .ok (6 :: (oid_collapsed a b rest).length :: oid_collapsed a b rest) := by
    unfold pyBytes
    rw [if_pos]
    rw [List.all_eq_true]
    intro x hx
    rcases List.mem_cons.mp hx with h | hx
    · subst h; decide
    rcases List.mem_cons.mp hx with h | hx
    · subst h
      simp only [decide_eq_true_eq]
      omega
    · simp only [decide_eq_true_eq]
      exact oid_collapsed_le_255 a b rest hab x hx
  have htb : Oid.to_bytes (a :: b :: rest)
      = .ok (6 :: (oid_collapsed a b rest).length :: oid_collapsed a b rest) := by
    unfold Oid.to_bytes
    rw [hmk]
    simpa [bind, Except.bind] using hpy
  have hcl : consume_length
        ((oid_collapsed a b rest).length :: oid_collapsed a b rest)
      = .ok ((oid_collapsed a b rest).length, oid_collapsed a b rest) := by
    simp only [consume_length]
    rw [if_neg (show ¬(oid_collapsed a b rest).length = 255 by omega),
      if_pos (and128_eq_zero_of_lt (show (oid_collapsed a b rest).length < 128 by omega))]
  have hdec : decode_identifiers ((rest.map encode_large_value).flatten.length + 1)
        (rest.map encode_large_value).flatten = .ok rest :=
    decode_identifiers_encoded rest _ (by omega)
  have hdiv : (40 * a + b) / 40 = a := by
    rw [Nat.mul_add_div (by omega), Nat.div_eq_of_lt hb]
    omega
  have hmod : (40 * a + b) % 40 = b := by
    rw [Nat.mul_add_mod]
    exact Nat.mod_eq_of_lt hb
  rw [htb]
  simp only [Except.bind]
  simp only [Oid.from_bytes]
  rw [if_neg (show ¬((6 : Nat) ≠ 6) by omega)]
  rw [hcl]
  simp only [bind, Except.bind]
  show (do
      let out ← decode_identifiers
        ((rest.map encode_large_value).flatten.length + 1)
        (rest.map encode_large_value).flatten
      Oid.mk_model ((40 * a + b) / 40 :: (40 * a + b) % 40 :: out)).map
      OidV.identifiers = _
  rw [hdec]
  simp only [bind, Except.bind]
  rw [hdiv, hmod, hmk]
  rfl

/-- Witness for C1 (amended) at the spec's example identifier list
`1.3.6.1.4.1.8072.3.2.10`, whose component 8072 exceeds 127. -/
theorem oid_roundtrip_collapsible_witness :
    ((Oid.to_bytes [1, 3, 6, 1, 4, 1, 8072, 3, 2, 10]).bind Oid.from_bytes).map
        OidV.identifiers = .ok [1, 3, 6, 1, 4, 1, 8072, 3, 2, 10]
    ∧ (3 : Nat) < 40 :=
  ⟨oid_roundtrip_collapsible 1 3 [6, 1, 4, 1, 8072, 3, 2, 10]
      (by decide) (by decide) (by decide),
    by decide⟩

/-- Counterexample for C1 as stated: the identifier list `[0, 40]` (a
sequence of non-negative integers of length 2) encodes to the single
collapsed octet 40, which decodes back to `[1, 0]`, not `[0, 40]`. -/
theorem oid_roundtrip_counterexample :
    ((Oid.to_bytes [0, 40]).bind Oid.from_bytes).map OidV.identifiers
        = .ok [1, 0]
    ∧ ((Oid.to_bytes [0, 40]).bind Oid.from_bytes).map OidV.identifiers
        ≠ .ok [0, 40] := by
  constructor
  · rfl
  · intro h
    rw [show ((Oid.to_bytes [0, 40]).bind Oid.from_bytes).map OidV.identifiers
        = Except.ok [1, 0] from rfl] at h
    simp at h

/-! ### C2: non-zero error status in a `GetResponse` -/

theorem int_from_bytes_be_integer_octets (n : Nat) :
    int_from_bytes_be (integer_octets n) = n := by
  by_cases h : n = 0
  · subst h; rfl
  · simpa [integer_octets, h] using int_octets_loop_be n n le_rfl

theorem pyBytes_ok (l l' : List Nat) (h : pyBytes l = .ok l') : l' = l := by
  unfold pyBytes at h
  by_cases hc : l.all (fun b => b ≤ 255)
  · rw [if_pos hc] at h
    simpa using h.symm
  · rw [if_neg hc] at h
    simp at h

theorem consume_length_short (len : Nat) (tail : List Nat) (h : len < 128) :
    consume_length (len :: tail) = .ok (len, tail) := by
  simp only [consume_length]
  rw [if_neg (by omega), if_pos (and128_eq_zero_of_lt h)]

theorem consumeF_int (fuel : Nat) (o rest : List Nat) (h : o.length < 128) :
    consumeF (fuel + 1) (2 :: o.length :: (o ++ rest))
      = .ok (some (.int (int_from_bytes_be o)), rest) := by
  have hcl : consume_length (o.length :: (o ++ rest)) = .ok (o.length, o ++ rest) :=
    consume_length_short _ _ h
  have hchunk : (2 :: o.length :: (o ++ rest)).take (o.length + 2)
      = 2 :: o.length :: o := by
    rw [show o.length + 2 = (o.length + 1) + 1 from rfl]
    rw [List.take_succ_cons, List.take_succ_cons, List.take_left]
  have hint : integer_from_bytes (2 :: o.length :: o)
      = .ok (int_from_bytes_be o) := by
    simp only [integer_from_bytes]
    rw [if_neg (show ¬((2 : Nat) ≠ 2) by omega)]
    rw [consume_length_short _ _ h]
    simp only [bind, Except.bind]
  simp only [consumeF]
  rw [hcl]
  simp only [bind, Except.bind, if_true]
  rw [hchunk, hint]
  simp only [Except.map]
  rw [List.drop_left]

theorem getResponseF_errstatus (f : Nat) (ra sa ia vb : List Nat)
    (hra : ra.length < 128) (hsa : sa.length < 128) (hia : ia.length < 128)
    (hP : ((2 :: ra.length :: ra) ++ (2 :: sa.length :: sa)
        ++ (2 :: ia.length :: ia) ++ vb).length ≤ 127)
    (hst : int_from_bytes_be sa ≠ 0) :
    getResponseFromBytesF (f + 2)
        (162 :: ((2 :: ra.length :: ra) ++ (2 :: sa.length :: sa)
            ++ (2 :: ia.length :: ia) ++ vb).length
          :: ((2 :: ra.length :: ra) ++ (2 :: sa.length :: sa)
            ++ (2 :: ia.length :: ia) ++ vb)) = .error .snmpError := by
  have hne : ∀ x : Nat, ¬(x ≠ x) := fun x h => h rfl
  rw [show f + 2 = (f + 1) + 1 from rfl]
  simp only [getResponseFromBytesF]
  rw [if_neg (hne 162)]
  rw [consume_length_short _ _ (by omega)]
  simp only [bind, Except.bind]
  rw [if_neg (hne _)]
  simp only [List.cons_append, List.append_assoc]
  rw [consumeF_int f ra _ hra]
  simp only [bind, Except.bind]
  rw [consumeF_int f sa _ hsa]
  simp only [bind, Except.bind]
  rw [consumeF_int f ia _ hia]
  simp [errValueTruthy, bind, Except.bind, hst]

/-- C2: a `GetResponse` buffer carrying `request-id`, `error-status` and
`error-index` Integer TLVs followed by arbitrary varbind bytes decodes
to `SnmpError` whenever the error-status integer is non-zero, and can
return a decoded value only when the error-status is zero. -/
theorem getResponse_nonzero_error_status (rid status idx : Nat)
    (vb br bs bi : List Nat)
    (hr : integer_bytes rid = .ok br) (hs : integer_bytes status = .ok bs)
    (hi : integer_bytes idx = .ok bi)
    (hlen : (br ++ bs ++ bi ++ vb).length ≤ 127) :
    (status ≠ 0 →
      GetResponse.from_bytes
          (162 :: (br ++ bs ++ bi ++ vb).length :: (br ++ bs ++ bi ++ vb))
        = .error .snmpError)
    ∧ (∀ v, GetResponse.from_bytes
          (162 :: (br ++ bs ++ bi ++ vb).length :: (br ++ bs ++ bi ++ vb))
        = .ok v → status = 0) := by
  have hbr : br = 2 :: (integer_octets rid).length :: integer_octets rid :=
    pyBytes_ok _ _ hr
  have hbs : bs = 2 :: (integer_octets status).length :: integer_octets status :=
    pyBytes_ok _ _ hs
  have hbi : bi = 2 :: (integer_octets idx).length :: integer_octets idx :=
    pyBytes_ok _ _ hi
  subst hbr
  subst hbs
  subst hbi
  have hr128 : (integer_octets rid).length < 128 := by
    simp only [List.length_append, List.length_cons] at hlen
    omega
  have hs128 : (integer_octets status).length < 128 := by
    simp only [List.length_append, List.length_cons] at hlen
    omega
  have hi128 : (integer_octets idx).length < 128 := by
    simp only [List.length_append, List.length_cons] at hlen
    omega
  have hmain : status ≠ 0 →
      GetResponse.from_bytes
          (162 :: ((2 :: (integer_octets rid).length :: integer_octets rid)
              ++ (2 :: (integer_octets status).length :: integer_octets status)
              ++ (2 :: (integer_octets idx).length :: integer_octets idx)
              ++ vb).length
            :: ((2 :: (integer_octets rid).length :: integer_octets rid)
              ++ (2 :: (integer_octets status).length :: integer_octets status)
              ++ (2 :: (integer_octets idx).length :: integer_octets idx)
              ++ vb))
        = .error .snmpError := by
    intro hst
    unfold GetResponse.from_bytes
    exact getResponseF_errstatus _ _ _ _ _ hr128 hs128 hi128 hlen
      (by rwa [int_from_bytes_be_integer_octets])
  refine ⟨hmain, fun v hv => ?_⟩
  by_contra h0
  rw [hmain h0] at hv
  simp at hv

/-- Witness for C2 at a concrete response buffer with request id 1,
error-status 5, error-index 0 and empty varbind bytes. -/
theorem getResponse_nonzero_error_status_witness :
    GetResponse.from_bytes [162, 9, 2, 1, 1, 2, 1, 5, 2, 1, 0]
      = .error .snmpError := by
  have h := (getResponse_nonzero_error_status 1 5 0 [] [2, 1, 1] [2, 1, 5]
    [2, 1, 0] rfl rfl rfl (by decide)).1 (by decide)
  exact h
